import Mathlib

/-!
Shallow embedding of the `inky_bank` ink! contract (src/lib.rs of the
`inky-erc20` repository) and a verification of the specification claims
about it.

Modelling conventions:
* `AccountId` is an opaque comparable identifier, embedded as `Nat`.
* `u128` values are embedded as `Nat`; `saturating_add` clamps at
  `2 ^ 128 - 1`, `saturating_sub` clamps at `0` (which is exactly `Nat`
  subtraction), and the unchecked `u128` iterator sum in `batch_transfer`
  (`amounts.iter().sum()`) is embedded as a left fold of wrapping addition
  modulo `2 ^ 128`, the release-mode semantics of unchecked Rust addition.
* `ink::storage::Mapping` (get/insert, absence read as the default) is
  embedded as an association list with insert-overwrites-first-match
  semantics; a fresh contract starts from the empty list.
* Each `#[ink(message)]` taking `&mut self` is embedded as a function
  `InkyBank → args → Except Error Unit × InkyBank × List Event`: the
  returned state is the post-call storage (also on the error paths, which
  matters because `batch_transfer` can return an error after having
  already applied some transfers), and the event list collects the
  `emit_event` calls made during the message, in order.
-/

abbrev AccountId := Nat

def U128_MOD : Nat := 2 ^ 128

def U128_MAX : Nat := 2 ^ 128 - 1

/-- `u128::saturating_add`. -/
def sat_add (a b : Nat) : Nat := min (a + b) U128_MAX

/-- `u128::saturating_sub` (`Nat` subtraction already clamps at zero). -/
def sat_sub (a b : Nat) : Nat := a - b

/-- One step of the unchecked `u128` addition used by `Iterator::sum`,
with Rust release-mode (wrapping) overflow semantics. -/
def wrap_add (a b : Nat) : Nat := (a + b) % U128_MOD

/-- `amounts.iter().sum::<u128>()` as the code computes it. -/
def wrap_sum (l : List Nat) : Nat := l.foldl wrap_add 0

/-- Modelled from the spec's words ("sum of all amounts, computed with
saturating summation"): the aggregate the specification says
`batch_transfer` computes.  This definition exists only to be compared
with `wrap_sum`, the aggregate the code actually computes. -/
def satSum (l : List Nat) : Nat := l.foldl sat_add 0

/-- `Mapping::get`: first entry with the given key, if any. -/
def alist_get {K V : Type} [DecidableEq K] : List (K × V) → K → Option V
  | [], _ => none
  | (k', v) :: rest, k => if k' = k then some v else alist_get rest k

/-- `Mapping::insert`: overwrite the value stored at a key. -/
def alist_insert {K V : Type} [DecidableEq K] (m : List (K × V)) (k : K) (v : V) :
    List (K × V) :=
  (k, v) :: m.filter (fun p => decide (p.1 ≠ k))

/-- The events declared by the contract. -/
inductive Event : Type where
  | Minted (to_ : AccountId) (amount : Nat)
  | Transfer (from_ to_ : AccountId) (amount : Nat)
  | Approval (owner spender : AccountId) (amount : Nat)
  | Paused (paused : Bool)
  | Burned (from_ : AccountId) (amount : Nat)
  | Blacklisted (account : AccountId) (status : Bool)
  deriving DecidableEq

/-- The error enumeration of the contract. -/
inductive Error : Type where
  | InsufficientBalance
  | NotOwner
  | ZeroAmount
  | ContractPaused
  | AccountBlacklisted
  | InsufficientAllowance
  | InvalidBatchOperation
  deriving DecidableEq

deriving instance DecidableEq for Except

/-- The `#[ink(storage)]` struct `InkyBank`. -/
structure InkyBank : Type where
  owner : AccountId
  total_supply : Nat
  balances : List (AccountId × Nat)
  allowances : List ((AccountId × AccountId) × Nat)
  paused : Bool
  blacklist : List (AccountId × Bool)
  deriving DecidableEq

namespace InkyBank

/-- The constructor `new`: the constructing caller becomes the owner,
everything else starts empty / zero / false. -/
def new (caller : AccountId) : InkyBank :=
  { owner := caller, total_supply := 0, balances := [], allowances := [],
    paused := false, blacklist := [] }

/-- `balance_of`: stored balance, or 0 when absent. -/
def balance_of (s : InkyBank) (account : AccountId) : Nat :=
  (alist_get s.balances account).getD 0

/-- `allowance`: stored allowance for `(owner, spender)`, or 0 when absent. -/
def allowance (s : InkyBank) (owner_ spender : AccountId) : Nat :=
  (alist_get s.allowances (owner_, spender)).getD 0

/-- `self.blacklist.get(a).unwrap_or(false)`. -/
def is_blacklisted (s : InkyBank) (a : AccountId) : Bool :=
  (alist_get s.blacklist a).getD false

/-- `mint(to, amount)` with `caller = self.env().caller()`. -/
def mint (s : InkyBank) (caller to_ : AccountId) (amount : Nat) :
    Except Error Unit × InkyBank × List Event :=
  if caller ≠ s.owner then (Except.error Error.NotOwner, s, [])
  else if s.paused then (Except.error Error.ContractPaused, s, [])
  else if is_blacklisted s to_ then (Except.error Error.AccountBlacklisted, s, [])
  else if amount = 0 then (Except.error Error.ZeroAmount, s, [])
  else
    (Except.ok (),
      { s with
        balances := alist_insert s.balances to_ (sat_add (balance_of s to_) amount),
        total_supply := sat_add s.total_supply amount },
      [Event.Minted to_ amount])

/-- `transfer(to, amount)` with `caller = self.env().caller()` as the
source of the funds.  Note the code re-reads `balance_of(to)` after
debiting the caller, so a self-transfer credits the already-debited
balance. -/
def transfer (s : InkyBank) (caller to_ : AccountId) (amount : Nat) :
    Except Error Unit × InkyBank × List Event :=
  if amount = 0 then (Except.error Error.ZeroAmount, s, [])
  else if balance_of s caller < amount then (Except.error Error.InsufficientBalance, s, [])
  else
    let s1 : InkyBank :=
      { s with balances := alist_insert s.balances caller (sat_sub (balance_of s caller) amount) }
    let s2 : InkyBank :=
      { s1 with balances := alist_insert s1.balances to_ (sat_add (balance_of s1 to_) amount) }
    (Except.ok (), s2, [Event.Transfer caller to_ amount])

/-- `approve(spender, amount)` with `caller = self.env().caller()`. -/
def approve (s : InkyBank) (caller spender : AccountId) (amount : Nat) :
    Except Error Unit × InkyBank × List Event :=
  (Except.ok (),
    { s with allowances := alist_insert s.allowances (caller, spender) amount },
    [Event.Approval caller spender amount])

/-- `transfer_from(from, to, amount)` with `caller = self.env().caller()`.
The code credits `to` first, reading `to`'s balance from the pre-credit
state, and then overwrites `from` with the balance it read *before* the
credit, minus `amount` (the shadowed `from_balance` binding in the
source).  This order is reproduced exactly: when `from = to` the credit
is therefore lost. -/
def transfer_from (s : InkyBank) (caller from_ to_ : AccountId) (amount : Nat) :
    Except Error Unit × InkyBank × List Event :=
  if s.paused then (Except.error Error.ContractPaused, s, [])
  else if amount = 0 then (Except.error Error.ZeroAmount, s, [])
  else if allowance s from_ caller < amount then (Except.error Error.InsufficientAllowance, s, [])
  else if balance_of s from_ < amount then (Except.error Error.InsufficientBalance, s, [])
  else
    let s1 : InkyBank :=
      { s with balances := alist_insert s.balances to_ (sat_add (balance_of s to_) amount) }
    let s2 : InkyBank :=
      { s1 with balances := alist_insert s1.balances from_ (sat_sub (balance_of s from_) amount) }
    (Except.ok (), s2, [Event.Transfer from_ to_ amount])

/-- The `for (i, recipient) in recipients.iter().enumerate()` loop of
`batch_transfer`, over the already-zipped `(recipient, amount)` pairs:
each pair is handed to `transfer`, and `?` propagates the first error,
keeping the state and events accumulated so far. -/
def batch_go (caller : AccountId) : InkyBank → List (AccountId × Nat) →
    Except Error Unit × InkyBank × List Event
  | s, [] => (Except.ok (), s, [])
  | s, (r, a) :: rest =>
    match transfer s caller r a with
    | (Except.ok _, s', evs) =>
      match batch_go caller s' rest with
      | (res, s'', evs') => (res, s'', evs ++ evs')
    | (Except.error e, s', evs) => (Except.error e, s', evs)

/-- `batch_transfer(recipients, amounts)` with `caller = self.env().caller()`. -/
def batch_transfer (s : InkyBank) (caller : AccountId)
    (recipients : List AccountId) (amounts : List Nat) :
    Except Error Unit × InkyBank × List Event :=
  if s.paused then (Except.error Error.ContractPaused, s, [])
  else if recipients.length ≠ amounts.length then (Except.error Error.InvalidBatchOperation, s, [])
  else if balance_of s caller < wrap_sum amounts then (Except.error Error.InsufficientBalance, s, [])
  else batch_go caller s (recipients.zip amounts)

/-- `toggle_pause(paused)` with `caller = self.env().caller()`. -/
def toggle_pause (s : InkyBank) (caller : AccountId) (p : Bool) :
    Except Error Unit × InkyBank × List Event :=
  if caller ≠ s.owner then (Except.error Error.NotOwner, s, [])
  else (Except.ok (), { s with paused := p }, [Event.Paused p])

/-- `burn(amount)` with `caller = self.env().caller()`. -/
def burn (s : InkyBank) (caller : AccountId) (amount : Nat) :
    Except Error Unit × InkyBank × List Event :=
  if amount = 0 then (Except.error Error.ZeroAmount, s, [])
  else if balance_of s caller < amount then (Except.error Error.InsufficientBalance, s, [])
  else
    (Except.ok (),
      { s with
        balances := alist_insert s.balances caller (sat_sub (balance_of s caller) amount),
        total_supply := sat_sub s.total_supply amount },
      [Event.Burned caller amount])

/-- `toggle_blacklist(account, status)` with `caller = self.env().caller()`. -/
def toggle_blacklist (s : InkyBank) (caller account : AccountId) (status : Bool) :
    Except Error Unit × InkyBank × List Event :=
  if caller ≠ s.owner then (Except.error Error.NotOwner, s, [])
  else
    (Except.ok (),
      { s with blacklist := alist_insert s.blacklist account status },
      [Event.Blacklisted account status])

/-- One public mutating call together with its caller and arguments. -/
inductive Op : Type where
  | mint (caller to_ : AccountId) (amount : Nat)
  | transfer (caller to_ : AccountId) (amount : Nat)
  | approve (caller spender : AccountId) (amount : Nat)
  | transferFrom (caller from_ to_ : AccountId) (amount : Nat)
  | batchTransfer (caller : AccountId) (recipients : List AccountId) (amounts : List Nat)
  | burn (caller : AccountId) (amount : Nat)
  | togglePause (caller : AccountId) (p : Bool)
  | toggleBlacklist (caller account : AccountId) (status : Bool)
  deriving DecidableEq

/-- Dispatch an `Op` to the corresponding contract message. -/
def applyOp (s : InkyBank) : Op → Except Error Unit × InkyBank × List Event
  | Op.mint c to_ a => mint s c to_ a
  | Op.transfer c to_ a => transfer s c to_ a
  | Op.approve c sp a => approve s c sp a
  | Op.transferFrom c f t a => transfer_from s c f t a
  | Op.batchTransfer c rs amts => batch_transfer s c rs amts
  | Op.burn c a => burn s c a
  | Op.togglePause c p => toggle_pause s c p
  | Op.toggleBlacklist c acc st => toggle_blacklist s c acc st

/-- Run a sequence of calls, requiring every one of them to succeed. -/
def runOps : InkyBank → List Op → Option InkyBank
  | s, [] => some s
  | s, op :: rest =>
    match applyOp s op with
    | (Except.ok _, s', _) => runOps s' rest
    | (Except.error _, _, _) => none

/-- Is the operation a `batch_transfer`? -/
def Op.isBatch : Op → Bool
  | Op.batchTransfer _ _ _ => true
  | _ => false

/-- The five value-moving operations named by the conservation claim. -/
def Op.isValueOp : Op → Bool
  | Op.mint _ _ _ => true
  | Op.transfer _ _ _ => true
  | Op.transferFrom _ _ _ _ => true
  | Op.batchTransfer _ _ _ => true
  | Op.burn _ _ => true
  | _ => false

/-- Does the operation, run from state `s`, avoid saturating the total
supply?  Only `mint` can saturate it. -/
def Op.mintOk (s : InkyBank) : Op → Bool
  | Op.mint _ _ a => decide (s.total_supply + a ≤ U128_MAX)
  | _ => true

/-- A run of value-moving operations in which every call succeeds and no
mint saturates the 128-bit total supply. -/
def consRun : InkyBank → List Op → Bool
  | _, [] => true
  | s, op :: rest =>
    op.isValueOp && Op.mintOk s op &&
      (match applyOp s op with
       | (Except.ok _, s', _) => consRun s' rest
       | (Except.error _, _, _) => false)

/-- Sum of the balances stored in the balance mapping. -/
def sumVals (m : List (AccountId × Nat)) : Nat := (m.map Prod.snd).sum

/-- Sum of `balance_of` over every account with an entry in the balance
mapping.  Every account ever credited or debited by a successful
operation has such an entry, and an account without one reads as
balance 0, so this is the claim's "sum over every account ever touched". -/
def sumTouched (s : InkyBank) : Nat :=
  ((s.balances.map Prod.fst).map (fun a => balance_of s a)).sum

/-- The balance map produced by a successful `transfer`: debit the caller,
then credit `to` reading the already-debited map. -/
def transfer_balances (s : InkyBank) (caller to_ : AccountId) (amount : Nat) :
    List (AccountId × Nat) :=
  let b1 := alist_insert s.balances caller (balance_of s caller - amount)
  alist_insert b1 to_ (sat_add ((alist_get b1 to_).getD 0) amount)

/-- The inductive invariant behind conservation: balance keys are distinct,
the stored balances sum to the total supply, the total supply is within the
`u128` range, and no allowance has ever been granted (the claim's operation
set contains no `approve`, so the allowance mapping stays empty). -/
def Inv (s : InkyBank) : Prop :=
  (s.balances.map Prod.fst).Nodup ∧ sumVals s.balances = s.total_supply ∧
    s.total_supply ≤ U128_MAX ∧ s.allowances = []

/-- Concrete state for the C5 witness: account 1 holds 10 tokens and has
approved spender 2 for 5. -/
def c5state : InkyBank := ⟨0, 10, [(1, 10)], [((1, 2), 5)], false, []⟩

/-- Concrete reachable state for the C2 counterexample: owner 0 has minted 1
token to account 1. -/
def c2state : InkyBank := ⟨0, 1, [(1, 1)], [], false, []⟩

/-- Operations reaching the C8 counterexample state: two mints, the second
of which saturates the recipient-independent total supply but, more to the
point, puts account 1 at exactly `u128::MAX`. -/
def c8ops : List Op := [Op.mint 0 1 U128_MAX, Op.mint 0 2 1]

/-- The state reached by `c8ops`: account 1 holds `u128::MAX`, account 2
holds 1. -/
def c8state : InkyBank := ⟨0, U128_MAX, [(2, 1), (1, U128_MAX)], [], false, []⟩

/-- Concrete reachable state for the C3 counterexample: owner 0 has minted 5
tokens to account 1. -/
def c3state : InkyBank := ⟨0, 5, [(1, 5)], [], false, []⟩

/-- Pre-call state for the C4 witness: account 1 holds 5 tokens. -/
def c4state : InkyBank := ⟨0, 5, [(1, 5)], [], false, []⟩

/-- Mid-loop state for the C4 witness: the first transfer of the batch has
been applied (5 tokens moved from account 1 to account 2). -/
def c4mid : InkyBank := ⟨0, 5, [(2, 5), (1, 0)], [], false, []⟩

/-- Operation sequence for the C1 counterexample: the owner mints
`u128::MAX` to account 1 and then 1 more token to account 2.  Both mints
succeed, but the second saturates the total supply while account 2's
balance still grows. -/
def c1ops : List Op := [Op.mint 0 1 U128_MAX, Op.mint 0 2 1]

/-- The state reached by `c1ops`. -/
def c1state : InkyBank := ⟨0, U128_MAX, [(2, 1), (1, U128_MAX)], [], false, []⟩

/-- Witness run for the amended C1: a mint, a two-recipient batch transfer,
a burn and a plain transfer. -/
def c1ops_ok : List Op :=
  [Op.mint 0 1 10, Op.batchTransfer 1 [2, 3] [3, 4], Op.burn 2 1, Op.transfer 3 2 4]

end InkyBank

/-! ### Association-list lemmas -/

theorem alist_get_filter_ne {K V : Type} [DecidableEq K] (m : List (K × V)) (k k' : K)
    (h : k ≠ k') :
    alist_get (m.filter (fun p => decide (p.1 ≠ k))) k' = alist_get m k' := by
  induction m with
  | nil => rfl
  | cons p rest ih =>
    obtain ⟨a, b⟩ := p
    by_cases hak : a = k
    · subst hak
      simpa [alist_get, List.filter_cons, h, Ne.symm h] using ih
    · by_cases hak' : a = k'
      · subst hak'
        simp [alist_get, List.filter_cons, hak]
      · simpa [alist_get, List.filter_cons, hak, hak'] using ih

theorem alist_get_insert_eq {K V : Type} [DecidableEq K] (m : List (K × V)) (k : K) (v : V) :
    alist_get (alist_insert m k v) k = some v := by
  simp [alist_insert, alist_get]

theorem alist_get_insert_ne {K V : Type} [DecidableEq K] (m : List (K × V)) (k k' : K) (v : V)
    (h : k ≠ k') :
    alist_get (alist_insert m k v) k' = alist_get m k' := by
  have := alist_get_filter_ne m k k' h
  simpa [alist_insert, alist_get, h] using this

theorem alist_filter_of_not_mem {K V : Type} [DecidableEq K] (m : List (K × V)) (k : K)
    (h : k ∉ m.map Prod.fst) :
    m.filter (fun p => decide (p.1 ≠ k)) = m := by
  refine List.filter_eq_self.mpr ?_
  intro p hp
  have hne : p.1 ≠ k := fun hpk => h (List.mem_map.mpr ⟨p, hp, hpk⟩)
  simpa using hne

theorem alist_get_of_not_mem {K V : Type} [DecidableEq K] (m : List (K × V)) (k : K)
    (h : k ∉ m.map Prod.fst) :
    alist_get m k = none := by
  induction m with
  | nil => rfl
  | cons p rest ih =>
    obtain ⟨a, b⟩ := p
    simp only [List.map_cons, List.mem_cons] at h
    push_neg at h
    have hak : ¬ a = k := fun hak => h.1 hak.symm
    simp [alist_get, hak, ih h.2]

theorem nodup_keys_insert {K V : Type} [DecidableEq K] (m : List (K × V)) (k : K) (v : V)
    (h : (m.map Prod.fst).Nodup) :
    ((alist_insert m k v).map Prod.fst).Nodup := by
  simp only [alist_insert, List.map_cons, List.nodup_cons]
  constructor
  · intro hmem
    simp only [List.mem_map, List.mem_filter] at hmem
    obtain ⟨p, ⟨_, hp⟩, hpk⟩ := hmem
    simp [hpk] at hp
  · exact ((List.filter_sublist m).map Prod.fst).nodup h

namespace InkyBank

theorem get_le_sumVals (m : List (AccountId × Nat)) (k : AccountId) :
    (alist_get m k).getD 0 ≤ sumVals m := by
  induction m with
  | nil => simp [alist_get, sumVals]
  | cons p rest ih =>
    obtain ⟨a, b⟩ := p
    by_cases hak : a = k
    · subst hak
      simp [alist_get, sumVals]
    · simp only [alist_get, hak, if_false, sumVals, List.map_cons, List.sum_cons]
      have := ih
      simp only [sumVals] at this
      omega

theorem sumVals_insert (m : List (AccountId × Nat)) (k : AccountId) (v : Nat)
    (hnd : (m.map Prod.fst).Nodup) :
    sumVals (alist_insert m k v) + (alist_get m k).getD 0 = sumVals m + v := by
  induction m with
  | nil => simp [alist_insert, alist_get, sumVals]
  | cons p rest ih =>
    obtain ⟨a, b⟩ := p
    simp only [List.map_cons, List.nodup_cons] at hnd
    by_cases hak : a = k
    · subst hak
      have hfilter : rest.filter (fun p => !decide (p.1 = a)) = rest := by
        simpa using alist_filter_of_not_mem rest a hnd.1
      simp only [alist_insert, alist_get, List.filter_cons, sumVals, List.map_cons,
        List.sum_cons, if_pos rfl]
      simp [hfilter]
      omega
    · have ih' := ih hnd.2
      simp only [alist_insert, alist_get, List.filter_cons, sumVals, List.map_cons,
        List.sum_cons, hak, if_false] at ih' ⊢
      simp only [show (decide (a ≠ k)) = true by simp [hak], if_true] at ih' ⊢
      simp at ih' ⊢
      omega

theorem map_get_eq_sumVals (m : List (AccountId × Nat)) (hnd : (m.map Prod.fst).Nodup) :
    ((m.map Prod.fst).map (fun a => (alist_get m a).getD 0)).sum = sumVals m := by
  induction m with
  | nil => rfl
  | cons p rest ih =>
    obtain ⟨a, b⟩ := p
    simp only [List.map_cons, List.nodup_cons] at hnd
    have hmap : (rest.map Prod.fst).map (fun k => (alist_get ((a, b) :: rest) k).getD 0)
        = (rest.map Prod.fst).map (fun k => (alist_get rest k).getD 0) := by
      apply List.map_congr_left
      intro k hk
      have hak : ¬ a = k := fun h => hnd.1 (h ▸ hk)
      simp [alist_get, hak]
    simp only [List.map_cons, List.sum_cons]
    rw [hmap, ih hnd.2]
    simp [alist_get, sumVals]

end InkyBank

namespace InkyBank

/-! ### Success/error characterizations of the individual messages -/

theorem transfer_ok_eq (s : InkyBank) (caller to_ : AccountId) (amount : Nat)
    (h0 : amount ≠ 0) (hle : amount ≤ balance_of s caller) :
    transfer s caller to_ amount =
      (Except.ok (), { s with balances := transfer_balances s caller to_ amount },
        [Event.Transfer caller to_ amount]) := by
  unfold transfer transfer_balances
  rw [if_neg h0, if_neg (by omega)]
  simp [balance_of, sat_sub]

theorem transfer_error_frame (s : InkyBank) (caller to_ : AccountId) (amount : Nat) (e : Error)
    (h : (transfer s caller to_ amount).1 = Except.error e) :
    transfer s caller to_ amount = (Except.error e, s, []) := by
  unfold transfer at h ⊢
  split_ifs at h ⊢ <;> simp_all

theorem transfer_ok_iff (s : InkyBank) (caller to_ : AccountId) (amount : Nat) :
    (transfer s caller to_ amount).1 = Except.ok () ↔
      amount ≠ 0 ∧ amount ≤ balance_of s caller := by
  constructor
  · intro h
    unfold transfer at h
    split_ifs at h with h1 h2
    exact ⟨h1, by omega⟩
  · rintro ⟨h0, hle⟩
    rw [transfer_ok_eq s caller to_ amount h0 hle]

end InkyBank

namespace InkyBank

/-- Claim C9 (confirmed): `approve(caller, spender, amount)` always succeeds,
for every caller, spender, amount and starting state (including a zero
amount, a paused engine and blacklisted parties, since nothing in `approve`
consults those), it emits exactly one Approval event, and afterwards
`allowance(caller, spender)` is exactly `amount`: the stored allowance is
overwritten, never added to or subtracted from. -/
theorem claim_C9_approve_overwrites (s : InkyBank) (caller spender : AccountId) (amount : Nat) :
    (approve s caller spender amount).1 = Except.ok () ∧
    (approve s caller spender amount).2.2 = [Event.Approval caller spender amount] ∧
    allowance (approve s caller spender amount).2.1 caller spender = amount := by
  refine ⟨rfl, rfl, ?_⟩
  simp [approve, allowance, alist_get_insert_eq]

/-- Claim C10 (confirmed): on an unpaused engine, `batch_transfer` with both
lists empty succeeds for every caller (even one with zero balance), leaves the
state unchanged and emits no event. -/
theorem claim_C10_empty_batch (s : InkyBank) (caller : AccountId) (h : s.paused = false) :
    batch_transfer s caller [] [] = (Except.ok (), s, []) := by
  simp [batch_transfer, h, wrap_sum, batch_go]

/-- Witness for C10 at a concrete state and caller. -/
theorem claim_C10_witness : batch_transfer (new 0) 7 [] [] = (Except.ok (), new 0, []) :=
  claim_C10_empty_batch (new 0) 7 rfl

/-- Claim C6 (confirmed): `mint` checks its preconditions in the fixed order
owner, paused, blacklist, zero-amount, and the first failing check determines
the error: a non-owner caller always gets `NotOwner`; the owner on a paused
engine always gets `ContractPaused` (even for a blacklisted recipient or a
zero amount); the owner on an unpaused engine minting to a blacklisted
recipient gets `AccountBlacklisted` even for a zero amount; and `ZeroAmount`
is returned only when all earlier checks pass. -/
theorem claim_C6_mint_check_order :
    (∀ (s : InkyBank) (caller to_ : AccountId) (amount : Nat), caller ≠ s.owner →
      mint s caller to_ amount = (Except.error Error.NotOwner, s, [])) ∧
    (∀ (s : InkyBank) (to_ : AccountId) (amount : Nat), s.paused = true →
      mint s s.owner to_ amount = (Except.error Error.ContractPaused, s, [])) ∧
    (∀ (s : InkyBank) (to_ : AccountId) (amount : Nat), s.paused = false →
      is_blacklisted s to_ = true →
      mint s s.owner to_ amount = (Except.error Error.AccountBlacklisted, s, [])) ∧
    (∀ (s : InkyBank) (to_ : AccountId), s.paused = false → is_blacklisted s to_ = false →
      mint s s.owner to_ 0 = (Except.error Error.ZeroAmount, s, [])) ∧
    (∀ (s : InkyBank) (caller to_ : AccountId) (amount : Nat),
      (mint s caller to_ amount).1 = Except.error Error.ZeroAmount →
      caller = s.owner ∧ s.paused = false ∧ is_blacklisted s to_ = false ∧ amount = 0) := by
  refine ⟨?_, ?_, ?_, ?_, ?_⟩
  · intro s caller to_ amount h
    simp [mint, h]
  · intro s to_ amount h
    simp [mint, h]
  · intro s to_ amount hp hb
    simp [mint, hp, hb]
  · intro s to_ hp hb
    simp [mint, hp, hb]
  · intro s caller to_ amount h
    unfold mint at h
    split_ifs at h with h1 h2 h3 h4
    · simp at h
    · simp at h
    · simp at h
    · exact ⟨by push_neg at h1; exact h1, by simpa using h2, by simpa using h3, h4⟩

/-- Witness for C6: a non-owner caller is rejected with `NotOwner`. -/
theorem claim_C6_witness : mint (new 0) 1 2 3 = (Except.error Error.NotOwner, new 0, []) :=
  claim_C6_mint_check_order.1 (new 0) 1 2 3 (by decide)

/-- Claim C5 (confirmed): a successful
`transfer_from(caller, from, to, amount)` leaves the whole allowance mapping
exactly as it was before the call, so in particular `allowance(from, caller)`
still returns the pre-call value: the allowance is not decremented. -/
theorem claim_C5_allowance_not_decremented (s : InkyBank) (caller from_ to_ : AccountId)
    (amount : Nat) (h : (transfer_from s caller from_ to_ amount).1 = Except.ok ()) :
    (transfer_from s caller from_ to_ amount).2.1.allowances = s.allowances ∧
    allowance (transfer_from s caller from_ to_ amount).2.1 from_ caller =
      allowance s from_ caller := by
  unfold transfer_from at h ⊢
  split_ifs at h ⊢
  exact ⟨rfl, rfl⟩

/-- Witness for C5: a successful delegated transfer of 5 from account 1 by
spender 2 leaves the allowance mapping untouched. -/
theorem claim_C5_witness :
    (transfer_from c5state 2 1 3 5).2.1.allowances = c5state.allowances ∧
    allowance (transfer_from c5state 2 1 3 5).2.1 1 2 = allowance c5state 1 2 :=
  claim_C5_allowance_not_decremented c5state 2 1 3 5 (by decide)

/-- Claim C7 (confirmed): the pause gate is asymmetric.  On a paused engine
`transfer_from` and `batch_transfer` fail with `ContractPaused` for every
caller and arguments, and `mint` fails with `ContractPaused` whenever the
caller is the owner (a non-owner caller gets `NotOwner` first, per C6);
`transfer` and `burn` ignore the paused flag entirely and succeed on a paused
engine whenever the amount is nonzero and the caller's balance suffices. -/
theorem claim_C7_pause_asymmetry :
    (∀ (s : InkyBank) (caller from_ to_ : AccountId) (amount : Nat), s.paused = true →
      transfer_from s caller from_ to_ amount = (Except.error Error.ContractPaused, s, [])) ∧
    (∀ (s : InkyBank) (caller : AccountId) (recipients : List AccountId)
      (amounts : List Nat), s.paused = true →
      batch_transfer s caller recipients amounts = (Except.error Error.ContractPaused, s, [])) ∧
    (∀ (s : InkyBank) (to_ : AccountId) (amount : Nat), s.paused = true →
      mint s s.owner to_ amount = (Except.error Error.ContractPaused, s, [])) ∧
    (∀ (s : InkyBank) (caller to_ : AccountId) (amount : Nat), s.paused = true →
      amount ≠ 0 → amount ≤ balance_of s caller →
      (transfer s caller to_ amount).1 = Except.ok ()) ∧
    (∀ (s : InkyBank) (caller : AccountId) (amount : Nat), s.paused = true →
      amount ≠ 0 → amount ≤ balance_of s caller →
      (burn s caller amount).1 = Except.ok ()) := by
  refine ⟨?_, ?_, ?_, ?_, ?_⟩
  · intro s caller from_ to_ amount h
    simp [transfer_from, h]
  · intro s caller recipients amounts h
    simp [batch_transfer, h]
  · intro s to_ amount h
    simp [mint, h]
  · intro s caller to_ amount _ h0 hle
    exact (transfer_ok_iff s caller to_ amount).mpr ⟨h0, hle⟩
  · intro s caller amount _ h0 hle
    unfold burn
    rw [if_neg h0, if_neg (by omega)]

/-- Witness for C7: on a paused engine, `transfer_from` is rejected while a
plain `transfer` of the same funds succeeds. -/
theorem claim_C7_witness :
    transfer_from ⟨0, 5, [(1, 5)], [], true, []⟩ 2 1 3 5 =
      (Except.error Error.ContractPaused, ⟨0, 5, [(1, 5)], [], true, []⟩, []) ∧
    (transfer ⟨0, 5, [(1, 5)], [], true, []⟩ 1 3 5).1 = Except.ok () :=
  ⟨claim_C7_pause_asymmetry.1 ⟨0, 5, [(1, 5)], [], true, []⟩ 2 1 3 5 rfl,
   claim_C7_pause_asymmetry.2.2.2.1 ⟨0, 5, [(1, 5)], [], true, []⟩ 1 3 5 rfl (by decide)
     (by decide)⟩

end InkyBank

namespace InkyBank

/-- Counterexample to claim C2 as stated.  The code computes the aggregate
with the wrapping `u128` iterator sum, not a saturating one: from the
reachable state `c2state` (one mint of 1 token to account 1), the batch
`recipients = [2, 3]`, `amounts = [1, u128::MAX]` has saturating sum
`u128::MAX`, far above the caller's balance 1, so per the claim the call
must return `InsufficientBalance` while mutating nothing; instead the
wrapped aggregate is `(1 + u128::MAX) mod 2^128 = 0 ≤ 1`, the check passes,
and the call goes on to move 1 token to account 2 before failing, mutating
the state. -/
theorem claim_C2_counterexample :
    runOps (new 0) [Op.mint 0 1 1] = some c2state ∧
    satSum [1, U128_MAX] > balance_of c2state 1 ∧
    (batch_transfer c2state 1 [2, 3] [1, U128_MAX]).1 =
      Except.error Error.InsufficientBalance ∧
    (batch_transfer c2state 1 [2, 3] [1, U128_MAX]).2.1 ≠ c2state := by
  refine ⟨by decide, by decide, by decide, by decide⟩

/-- Claim C2 as amended (proved): with the engine not paused and the length
check passed, `batch_transfer` computes the aggregate of `amounts` with the
wrapping (mod `2^128`) summation of the unchecked `u128` iterator sum, and
returns `InsufficientBalance`, mutating nothing and emitting nothing,
whenever that wrapped sum exceeds `balance_of(caller)`.  (A choice of
amounts whose true sum exceeds the caller's balance can still pass this
aggregate check via wrap-around, as the counterexample shows.) -/
theorem claim_C2_amended_wrap_aggregate (s : InkyBank) (caller : AccountId)
    (recipients : List AccountId) (amounts : List Nat)
    (hp : s.paused = false) (hlen : recipients.length = amounts.length)
    (hsum : balance_of s caller < wrap_sum amounts) :
    batch_transfer s caller recipients amounts =
      (Except.error Error.InsufficientBalance, s, []) := by
  simp [batch_transfer, hp, hlen, hsum]

/-- Witness for the amended C2 at a concrete input. -/
theorem claim_C2_witness :
    batch_transfer c2state 1 [2, 3] [5, 6] =
      (Except.error Error.InsufficientBalance, c2state, []) :=
  claim_C2_amended_wrap_aggregate c2state 1 [2, 3] [5, 6] rfl rfl (by decide)

/-- Counterexample to claim C8 as stated.  On the reachable state `c8state`,
account 2 transfers 1 token to account 1, whose balance is already
`u128::MAX`: the transfer succeeds (amount nonzero, balance sufficient) but
the credit saturates, so `balance_of(to)` does not increase by exactly the
amount. -/
theorem claim_C8_counterexample :
    runOps (new 0) c8ops = some c8state ∧
    (transfer c8state 2 1 1).1 = Except.ok () ∧
    balance_of (transfer c8state 2 1 1).2.1 1 ≠ balance_of c8state 1 + 1 := by
  refine ⟨by decide, by decide, by decide⟩

/-- Claim C8 as amended (proved): `transfer(caller = from, to, amount)` with
a nonzero amount and sufficient balance succeeds and emits exactly one
Transfer event; it leaves `total_supply` unchanged; when `from ≠ to` it
decreases `balance_of(from)` by exactly the amount, and increases
`balance_of(to)` by exactly the amount provided the credit does not
saturate (`balance_of(to) + amount ≤ u128::MAX` — otherwise it clamps, see
the counterexample); a self-transfer (`from = to`, balance within `u128`
range) is a net no-op on the balance yet still emits the event, and still
requires sufficient balance: with an insufficient balance even a
self-transfer fails with `InsufficientBalance` and mutates nothing. -/
theorem claim_C8_transfer_amended :
    (∀ (s : InkyBank) (caller to_ : AccountId) (amount : Nat),
      amount ≠ 0 → amount ≤ balance_of s caller →
      (transfer s caller to_ amount).1 = Except.ok () ∧
      (transfer s caller to_ amount).2.2 = [Event.Transfer caller to_ amount] ∧
      (transfer s caller to_ amount).2.1.total_supply = s.total_supply ∧
      (caller ≠ to_ →
        balance_of (transfer s caller to_ amount).2.1 caller = balance_of s caller - amount) ∧
      (caller ≠ to_ → balance_of s to_ + amount ≤ U128_MAX →
        balance_of (transfer s caller to_ amount).2.1 to_ = balance_of s to_ + amount) ∧
      (caller = to_ → balance_of s caller ≤ U128_MAX →
        balance_of (transfer s caller to_ amount).2.1 caller = balance_of s caller)) ∧
    (∀ (s : InkyBank) (to_ : AccountId) (amount : Nat),
      amount ≠ 0 → balance_of s to_ < amount →
      transfer s to_ to_ amount = (Except.error Error.InsufficientBalance, s, [])) := by
  constructor
  · intro s caller to_ amount h0 hle
    rw [transfer_ok_eq s caller to_ amount h0 hle]
    refine ⟨rfl, rfl, rfl, ?_, ?_, ?_⟩
    · intro hct
      simp only [balance_of, transfer_balances]
      rw [alist_get_insert_ne _ to_ caller _ (Ne.symm hct), alist_get_insert_eq]
      rfl
    · intro hct hsat
      simp only [balance_of] at hsat ⊢
      simp only [transfer_balances]
      rw [alist_get_insert_eq, alist_get_insert_ne _ caller to_ _ hct]
      simp only [Option.getD_some, sat_add]
      exact min_eq_left hsat
    · intro hct hle128
      subst hct
      simp only [balance_of] at hle128 hle ⊢
      simp only [transfer_balances, balance_of]
      rw [alist_get_insert_eq, alist_get_insert_eq]
      simp only [Option.getD_some, sat_add, sat_sub]
      rw [Nat.sub_add_cancel hle]
      exact min_eq_left hle128
  · intro s to_ amount h0 hlt
    unfold transfer
    rw [if_neg h0, if_pos hlt]

/-- Witness for the amended C8: a concrete successful transfer of 30 from
account 1 (balance 50) to account 2 (balance 10). -/
theorem claim_C8_witness :
    (transfer ⟨0, 60, [(1, 50), (2, 10)], [], false, []⟩ 1 2 30).1 = Except.ok () ∧
    (transfer ⟨0, 60, [(1, 50), (2, 10)], [], false, []⟩ 1 2 30).2.2 =
      [Event.Transfer 1 2 30] ∧
    (transfer ⟨0, 60, [(1, 50), (2, 10)], [], false, []⟩ 1 2 30).2.1.total_supply = 60 ∧
    (1 ≠ 2 →
      balance_of (transfer ⟨0, 60, [(1, 50), (2, 10)], [], false, []⟩ 1 2 30).2.1 1 = 50 - 30) ∧
    (1 ≠ 2 → 10 + 30 ≤ U128_MAX →
      balance_of (transfer ⟨0, 60, [(1, 50), (2, 10)], [], false, []⟩ 1 2 30).2.1 2 = 10 + 30) ∧
    ((1 : AccountId) = 2 → (50 : Nat) ≤ U128_MAX →
      balance_of (transfer ⟨0, 60, [(1, 50), (2, 10)], [], false, []⟩ 1 2 30).2.1 1 = 50) := by
  have h := claim_C8_transfer_amended.1 ⟨0, 60, [(1, 50), (2, 10)], [], false, []⟩ 1 2 30
    (by decide) (by decide)
  simpa [balance_of, alist_get] using h

end InkyBank

namespace InkyBank

/-- Counterexample to claim C3 as stated.  From `c3state` (reachable by one
mint), `batch_transfer(caller = 1, [2, 3], [5, 0])` passes the pause, length
and aggregate checks (5 ≤ 5), applies the first transfer of 5 tokens to
account 2 (emitting its Transfer event), and then fails on the second pair
with `ZeroAmount`: the call returns an error, yet the post-call state
differs from the pre-call state and an event has been emitted. -/
theorem claim_C3_counterexample :
    runOps (new 0) [Op.mint 0 1 5] = some c3state ∧
    (batch_transfer c3state 1 [2, 3] [5, 0]).1 = Except.error Error.ZeroAmount ∧
    (batch_transfer c3state 1 [2, 3] [5, 0]).2.1 ≠ c3state ∧
    (batch_transfer c3state 1 [2, 3] [5, 0]).2.2 ≠ [] := by
  refine ⟨by decide, by decide, by decide, by decide⟩

/-- Claim C3 as amended (proved): for every public mutating operation other
than `batch_transfer` (mint, transfer, approve, transfer_from, burn,
toggle_pause, toggle_blacklist), an error return leaves the entire state
identical to the pre-call state and emits no event; `batch_transfer` behaves
likewise whenever any of its three up-front checks (pause, length,
aggregate) fails, the exception being a failure of an individual transfer
inside its loop, which keeps the already-applied transfers and their events
(see C4 and the counterexample). -/
theorem claim_C3_amended_error_frame :
    (∀ (s : InkyBank) (op : Op) (e : Error), op.isBatch = false →
      (applyOp s op).1 = Except.error e → (applyOp s op).2 = (s, [])) ∧
    (∀ (s : InkyBank) (caller : AccountId) (recipients : List AccountId)
      (amounts : List Nat),
      s.paused = true ∨ recipients.length ≠ amounts.length ∨
        balance_of s caller < wrap_sum amounts →
      (batch_transfer s caller recipients amounts).2 = (s, []) ∧
      ∃ e, (batch_transfer s caller recipients amounts).1 = Except.error e) := by
  constructor
  · intro s op e hb h
    cases op with
    | mint c t a =>
      simp only [applyOp] at h ⊢
      unfold mint at h ⊢
      split_ifs at h ⊢ <;> rfl
    | transfer c t a =>
      simp only [applyOp] at h ⊢
      unfold transfer at h ⊢
      split_ifs at h ⊢ <;> rfl
    | approve c sp a =>
      simp [applyOp, approve] at h
    | transferFrom c f t a =>
      simp only [applyOp] at h ⊢
      unfold transfer_from at h ⊢
      split_ifs at h ⊢ <;> rfl
    | batchTransfer c rs amts => simp [Op.isBatch] at hb
    | burn c a =>
      simp only [applyOp] at h ⊢
      unfold burn at h ⊢
      split_ifs at h ⊢ <;> rfl
    | togglePause c p =>
      simp only [applyOp] at h ⊢
      unfold toggle_pause at h ⊢
      split_ifs at h ⊢ <;> rfl
    | toggleBlacklist c acc st =>
      simp only [applyOp] at h ⊢
      unfold toggle_blacklist at h ⊢
      split_ifs at h ⊢ <;> rfl
  · intro s caller recipients amounts hcond
    unfold batch_transfer
    split_ifs with h1 h2 h3
    · exact ⟨rfl, Error.ContractPaused, rfl⟩
    · exact ⟨rfl, Error.InvalidBatchOperation, rfl⟩
    · exact ⟨rfl, Error.InsufficientBalance, rfl⟩
    · rcases hcond with hp | hl | hs
      · exact absurd hp (by simpa using h1)
      · exact absurd hl h2
      · exact absurd hs (by omega)

/-- Witness for the amended C3: a failing `burn` (zero amount) from a
concrete state changes nothing and emits nothing. -/
theorem claim_C3_witness : (applyOp (new 0) (Op.burn 1 0)).2 = (new 0, []) :=
  claim_C3_amended_error_frame.1 (new 0) (Op.burn 1 0) Error.ZeroAmount (by decide) (by decide)

/-- Key lemma for C4: if the first `i` pairs all transfer successfully,
producing state `s_i` and events `evs`, and the transfer of pair `i` fails
with error `e`, then the whole loop returns exactly `(error e, s_i, evs)`:
the first `i` transfers stay applied, nothing later is applied. -/
theorem batch_go_fail_at (caller : AccountId) :
    ∀ (pairs : List (AccountId × Nat)) (s s_i : InkyBank) (evs : List Event) (i : Nat)
      (hi : i < pairs.length),
      batch_go caller s (pairs.take i) = (Except.ok (), s_i, evs) →
      ∀ (e : Error),
        (transfer s_i caller (pairs.get ⟨i, hi⟩).1 (pairs.get ⟨i, hi⟩).2).1 =
          Except.error e →
        batch_go caller s pairs = (Except.error e, s_i, evs) := by
  intro pairs
  induction pairs with
  | nil =>
    intro s s_i evs i hi
    simp at hi
  | cons p rest ih =>
    intro s s_i evs i hi hpref e hfail
    obtain ⟨r, a⟩ := p
    cases i with
    | zero =>
      simp only [List.take_zero, batch_go] at hpref
      obtain ⟨hs, hevs⟩ : s = s_i ∧ ([] : List Event) = evs := by
        simpa using hpref
      subst hs
      subst hevs
      simp only [List.get] at hfail
      have htr := transfer_error_frame s caller r a e hfail
      simp [batch_go, htr]
    | succ j =>
      simp only [List.take_succ_cons] at hpref
      rcases htr : transfer s caller r a with ⟨res, s', evs'⟩
      cases res with
      | error e' =>
        rw [show batch_go caller s ((r, a) :: rest.take j) =
            (Except.error e', s', evs') from by simp [batch_go, htr]] at hpref
        simp at hpref
      | ok u =>
        cases u
        rcases hbg : batch_go caller s' (rest.take j) with ⟨res2, s2, evs2⟩
        rw [show batch_go caller s ((r, a) :: rest.take j) =
            (res2, s2, evs' ++ evs2) from by simp [batch_go, htr, hbg]] at hpref
        obtain ⟨hres2, hs2, hevs⟩ : res2 = Except.ok () ∧ s2 = s_i ∧ evs' ++ evs2 = evs := by
          simpa using hpref
        subst hres2
        subst hs2
        have hj : j < rest.length := by simpa using hi
        have hfail' : (transfer s2 caller (rest.get ⟨j, hj⟩).1 (rest.get ⟨j, hj⟩).2).1 =
            Except.error e := by
          simpa [List.get] using hfail
        have hrest := ih s' s2 evs2 j hj hbg e hfail'
        rw [← hevs]
        simp [batch_go, htr, hrest]

end InkyBank

namespace InkyBank

/-- Claim C4 (confirmed): `batch_transfer` applies each (recipient, amount)
pair immediately, in input order, through the single-transfer operation,
with no rollback.  If the pause, length and aggregate checks pass, the
first `i` pairs transfer successfully (reaching state `s_i` with events
`evs`), and the transfer of pair `i` fails with error `e`, then the whole
call returns exactly that error with state `s_i` and events `evs`: every
transfer before index `i` stays applied, and no transfer at index `i` or
after is applied. -/
theorem claim_C4_batch_midloop_failure
    (s : InkyBank) (caller : AccountId) (recipients : List AccountId) (amounts : List Nat)
    (i : Nat) (s_i : InkyBank) (evs : List Event) (e : Error)
    (hp : s.paused = false) (hlen : recipients.length = amounts.length)
    (hagg : wrap_sum amounts ≤ balance_of s caller)
    (hi : i < (recipients.zip amounts).length)
    (hpref : batch_go caller s ((recipients.zip amounts).take i) = (Except.ok (), s_i, evs))
    (hfail : (transfer s_i caller ((recipients.zip amounts).get ⟨i, hi⟩).1
        ((recipients.zip amounts).get ⟨i, hi⟩).2).1 = Except.error e) :
    batch_transfer s caller recipients amounts = (Except.error e, s_i, evs) := by
  unfold batch_transfer
  rw [if_neg (by simp [hp]), if_neg (by simp [hlen]), if_neg (by omega)]
  exact batch_go_fail_at caller (recipients.zip amounts) s s_i evs i hi hpref e hfail

/-- Witness for C4: the batch `([2, 3], [5, 0])` from account 1 fails at
index 1 with `ZeroAmount`, with the first transfer still applied. -/
theorem claim_C4_witness :
    batch_transfer c4state 1 [2, 3] [5, 0] =
      (Except.error Error.ZeroAmount, c4mid, [Event.Transfer 1 2 5]) :=
  claim_C4_batch_midloop_failure c4state 1 [2, 3] [5, 0] 1 c4mid [Event.Transfer 1 2 5]
    Error.ZeroAmount rfl rfl (by decide) (by decide) (by decide) (by decide)

end InkyBank

namespace InkyBank

theorem sum_mint_update (b : List (AccountId × Nat)) (to_ : AccountId) (amount total : Nat)
    (hnd : (b.map Prod.fst).Nodup) (hsum : sumVals b = total)
    (hsat : total + amount ≤ U128_MAX) :
    sumVals (alist_insert b to_ (sat_add ((alist_get b to_).getD 0) amount)) =
      total + amount ∧
    ((alist_insert b to_ (sat_add ((alist_get b to_).getD 0) amount)).map Prod.fst).Nodup := by
  set tb := (alist_get b to_).getD 0 with htb
  have htb_le : tb ≤ sumVals b := get_le_sumVals b to_
  have hs : sat_add tb amount = tb + amount := min_eq_left (by omega)
  have e := sumVals_insert b to_ (sat_add tb amount) hnd
  refine ⟨by rw [hs] at e ⊢; omega, nodup_keys_insert b to_ _ hnd⟩

theorem sum_burn_update (b : List (AccountId × Nat)) (caller : AccountId) (amount total : Nat)
    (hnd : (b.map Prod.fst).Nodup) (hsum : sumVals b = total)
    (hle : amount ≤ (alist_get b caller).getD 0) :
    sumVals (alist_insert b caller ((alist_get b caller).getD 0 - amount)) = total - amount ∧
    ((alist_insert b caller ((alist_get b caller).getD 0 - amount)).map Prod.fst).Nodup := by
  set fb := (alist_get b caller).getD 0 with hfb
  have hfb_le : fb ≤ sumVals b := get_le_sumVals b caller
  have e := sumVals_insert b caller (fb - amount) hnd
  refine ⟨by omega, nodup_keys_insert b caller _ hnd⟩

theorem sum_transfer_update (b : List (AccountId × Nat)) (caller to_ : AccountId)
    (amount total : Nat) (hnd : (b.map Prod.fst).Nodup) (hsum : sumVals b = total)
    (htot : total ≤ U128_MAX) (hle : amount ≤ (alist_get b caller).getD 0) :
    sumVals (alist_insert (alist_insert b caller ((alist_get b caller).getD 0 - amount)) to_
      (sat_add ((alist_get (alist_insert b caller ((alist_get b caller).getD 0 - amount))
        to_).getD 0) amount)) = total ∧
    ((alist_insert (alist_insert b caller ((alist_get b caller).getD 0 - amount)) to_
      (sat_add ((alist_get (alist_insert b caller ((alist_get b caller).getD 0 - amount))
        to_).getD 0) amount)).map Prod.fst).Nodup := by
  set fb := (alist_get b caller).getD 0 with hfb
  have hfb_le : fb ≤ sumVals b := get_le_sumVals b caller
  set b1 := alist_insert b caller (fb - amount) with hb1
  have hnd1 : (b1.map Prod.fst).Nodup := nodup_keys_insert b caller (fb - amount) hnd
  have e1 : sumVals b1 + fb = sumVals b + (fb - amount) := sumVals_insert b caller (fb - amount) hnd
  set X := (alist_get b1 to_).getD 0 with hX
  have hXle : X ≤ sumVals b1 := get_le_sumVals b1 to_
  have hs : sat_add X amount = X + amount := min_eq_left (by omega)
  have e2 := sumVals_insert b1 to_ (sat_add X amount) hnd1
  refine ⟨by rw [hs] at e2 ⊢; omega, nodup_keys_insert b1 to_ _ hnd1⟩

theorem mint_preserves_inv (s : InkyBank) (caller to_ : AccountId) (amount : Nat)
    (hInv : Inv s) (hsat : s.total_supply + amount ≤ U128_MAX) (s' : InkyBank)
    (evs : List Event) (h : mint s caller to_ amount = (Except.ok (), s', evs)) :
    Inv s' := by
  obtain ⟨hnd, hsum, hle128, hall⟩ := hInv
  unfold mint at h
  split_ifs at h
  all_goals simp at h
  obtain ⟨hs', hevs⟩ := h
  subst hs'
  have hkey := sum_mint_update s.balances to_ amount s.total_supply hnd hsum hsat
  have htot : sat_add s.total_supply amount = s.total_supply + amount := min_eq_left hsat
  refine ⟨hkey.2, ?_, ?_, hall⟩
  · simpa [balance_of, htot] using hkey.1
  · simpa [htot] using hsat

theorem burn_preserves_inv (s : InkyBank) (caller : AccountId) (amount : Nat)
    (hInv : Inv s) (s' : InkyBank) (evs : List Event)
    (h : burn s caller amount = (Except.ok (), s', evs)) : Inv s' := by
  obtain ⟨hnd, hsum, hle128, hall⟩ := hInv
  unfold burn at h
  split_ifs at h with h0 hlt
  all_goals simp at h
  obtain ⟨hs', hevs⟩ := h
  subst hs'
  have hle : amount ≤ (alist_get s.balances caller).getD 0 := by
    simpa [balance_of] using Nat.le_of_not_lt hlt
  have hkey := sum_burn_update s.balances caller amount s.total_supply hnd hsum hle
  have hfb_le : (alist_get s.balances caller).getD 0 ≤ sumVals s.balances :=
    get_le_sumVals s.balances caller
  refine ⟨hkey.2, ?_, ?_, hall⟩
  · simpa [balance_of, sat_sub] using hkey.1
  · simp only [sat_sub]
    omega

theorem transfer_preserves_inv (s : InkyBank) (caller to_ : AccountId) (amount : Nat)
    (hInv : Inv s) (s' : InkyBank) (evs : List Event)
    (h : transfer s caller to_ amount = (Except.ok (), s', evs)) :
    Inv s' ∧ s'.total_supply = s.total_supply := by
  obtain ⟨hnd, hsum, hle128, hall⟩ := hInv
  have hok : (transfer s caller to_ amount).1 = Except.ok () := by rw [h]
  obtain ⟨h0, hle⟩ := (transfer_ok_iff s caller to_ amount).mp hok
  rw [transfer_ok_eq s caller to_ amount h0 hle] at h
  obtain ⟨hs', _⟩ :
      ({ s with balances := transfer_balances s caller to_ amount } = s') ∧
        [Event.Transfer caller to_ amount] = evs := by
    simpa using h
  subst hs'
  have hle' : amount ≤ (alist_get s.balances caller).getD 0 := hle
  have hkey := sum_transfer_update s.balances caller to_ amount s.total_supply hnd hsum
    hle128 hle'
  refine ⟨⟨?_, ?_, hle128, hall⟩, rfl⟩
  · simpa [transfer_balances, balance_of] using hkey.2
  · simpa [transfer_balances, balance_of] using hkey.1

theorem transfer_from_no_ok_of_no_allowances (s : InkyBank) (caller from_ to_ : AccountId)
    (amount : Nat) (hall : s.allowances = []) :
    (transfer_from s caller from_ to_ amount).1 ≠ Except.ok () := by
  unfold transfer_from
  split_ifs with h1 h2 h3 h4 <;> try simp
  have hz : allowance s from_ caller = 0 := by simp [allowance, hall, alist_get]
  omega

theorem batch_go_preserves_inv (caller : AccountId) :
    ∀ (pairs : List (AccountId × Nat)) (s : InkyBank), Inv s →
      ∀ (s' : InkyBank) (evs : List Event),
        batch_go caller s pairs = (Except.ok (), s', evs) →
        Inv s' ∧ s'.total_supply = s.total_supply := by
  intro pairs
  induction pairs with
  | nil =>
    intro s hInv s' evs h
    obtain ⟨hs, _⟩ : s = s' ∧ ([] : List Event) = evs := by simpa [batch_go] using h
    subst hs
    exact ⟨hInv, rfl⟩
  | cons p rest ih =>
    intro s hInv s' evs h
    obtain ⟨r, a⟩ := p
    rcases htr : transfer s caller r a with ⟨res, s1, evs1⟩
    cases res with
    | error e =>
      rw [show batch_go caller s ((r, a) :: rest) = (Except.error e, s1, evs1) from by
        simp [batch_go, htr]] at h
      simp at h
    | ok u =>
      cases u
      rcases hbg : batch_go caller s1 rest with ⟨res2, s2, evs2⟩
      rw [show batch_go caller s ((r, a) :: rest) = (res2, s2, evs1 ++ evs2) from by
        simp [batch_go, htr, hbg]] at h
      obtain ⟨hres2, hs2, _⟩ : res2 = Except.ok () ∧ s2 = s' ∧ evs1 ++ evs2 = evs := by
        simpa using h
      subst hres2
      subst hs2
      have h1 := transfer_preserves_inv s caller r a hInv s1 evs1 htr
      have h2 := ih s1 h1.1 s2 evs2 hbg
      exact ⟨h2.1, by omega⟩

theorem batch_transfer_preserves_inv (s : InkyBank) (caller : AccountId)
    (recipients : List AccountId) (amounts : List Nat) (hInv : Inv s) (s' : InkyBank)
    (evs : List Event) (h : batch_transfer s caller recipients amounts = (Except.ok (), s', evs)) :
    Inv s' := by
  unfold batch_transfer at h
  split_ifs at h
  rotate_right
  · exact (batch_go_preserves_inv caller (recipients.zip amounts) s hInv s' evs h).1
  all_goals simp at h

end InkyBank

namespace InkyBank

theorem consStep (s : InkyBank) (op : Op) (s' : InkyBank) (evs : List Event)
    (hInv : Inv s) (hval : op.isValueOp = true) (hmint : Op.mintOk s op = true)
    (h : applyOp s op = (Except.ok (), s', evs)) : Inv s' := by
  cases op with
  | mint c t a =>
    have hsat : s.total_supply + a ≤ U128_MAX := by simpa [Op.mintOk] using hmint
    exact mint_preserves_inv s c t a hInv hsat s' evs h
  | transfer c t a =>
    exact (transfer_preserves_inv s c t a hInv s' evs h).1
  | approve c sp a => simp [Op.isValueOp] at hval
  | transferFrom c f t a =>
    have hok : (transfer_from s c f t a).1 = Except.ok () := by
      rw [show applyOp s (Op.transferFrom c f t a) = transfer_from s c f t a from rfl] at h
      rw [h]
    exact absurd hok (transfer_from_no_ok_of_no_allowances s c f t a hInv.2.2.2)
  | batchTransfer c rs amts =>
    exact batch_transfer_preserves_inv s c rs amts hInv s' evs h
  | burn c a =>
    exact burn_preserves_inv s c a hInv s' evs h
  | togglePause c p => simp [Op.isValueOp] at hval
  | toggleBlacklist c acc st => simp [Op.isValueOp] at hval

theorem consRun_inv :
    ∀ (ops : List Op) (s : InkyBank), Inv s → consRun s ops = true →
      ∀ (s' : InkyBank), runOps s ops = some s' → Inv s' := by
  intro ops
  induction ops with
  | nil =>
    intro s hInv _ s' hr
    obtain hs : s = s' := by simpa [runOps] using hr
    rwa [← hs]
  | cons op rest ih =>
    intro s hInv hc s' hr
    rcases hop : applyOp s op with ⟨res, s1, evs⟩
    cases res with
    | error e =>
      rw [show runOps s (op :: rest) = none from by simp [runOps, hop]] at hr
      simp at hr
    | ok u =>
      cases u
      rw [show runOps s (op :: rest) = runOps s1 rest from by simp [runOps, hop]] at hr
      have hc' : (op.isValueOp && Op.mintOk s op && consRun s1 rest) = true := by
        rw [show consRun s (op :: rest) =
          (op.isValueOp && Op.mintOk s op && consRun s1 rest) from by
            simp [consRun, hop]] at hc
        exact hc
      simp only [Bool.and_eq_true] at hc'
      obtain ⟨⟨hval, hmint⟩, hcr⟩ := hc'
      exact ih s1 (consStep s op s1 evs hInv hval hmint hop) hcr s' hr

end InkyBank

namespace InkyBank

/-- Counterexample to claim C1 as stated.  Starting from a freshly
constructed engine, the two successful mints of `c1ops` (both from the
claim's operation set) reach a state whose total supply is `u128::MAX` while
the balances of the touched accounts sum to `u128::MAX + 1`: the saturating
addition on `total_supply` clamps while the recipient's balance still
grows, so the conservation invariant fails. -/
theorem claim_C1_counterexample :
    runOps (new 0) c1ops = some c1state ∧
    (Op.mint 0 1 U128_MAX).isValueOp = true ∧ (Op.mint 0 2 1).isValueOp = true ∧
    c1state.total_supply ≠ sumTouched c1state := by
  refine ⟨by decide, by decide, by decide, by decide⟩

/-- Claim C1 as amended (proved): starting from a freshly constructed
engine, after every sequence of successful mint, transfer, transfer_from,
batch_transfer and burn operations in which no mint saturates the 128-bit
total supply (each successful mint satisfies
`total_supply + amount ≤ u128::MAX`, the condition `consRun` checks),
`total_supply()` equals the sum of `balance_of(a)` over every account `a`
ever touched.  (With this operation set `transfer_from` can in fact never
succeed, since no `approve` is available to create an allowance; were
`approve` allowed, a self-directed `transfer_from` would also break
conservation, because the code loses the credit when `from = to`.) -/
theorem claim_C1_conservation_amended (c : AccountId) (ops : List Op) (s' : InkyBank)
    (hrun : consRun (new c) ops = true) (hs : runOps (new c) ops = some s') :
    s'.total_supply = sumTouched s' := by
  have hInv0 : Inv (new c) := by
    refine ⟨by simp [new], by simp [new, sumVals], ?_, rfl⟩
    simp [new]
  have hInv := consRun_inv ops (new c) hInv0 hrun s' hs
  obtain ⟨hnd, hsum, _, _⟩ := hInv
  have hmap := map_get_eq_sumVals s'.balances hnd
  simp only [sumTouched, balance_of]
  omega

/-- Witness for the amended C1 at the concrete run `c1ops_ok`: the final
total supply (9) equals the sum of the touched balances. -/
theorem claim_C1_witness :
    (⟨0, 9, [(2, 6), (3, 0), (1, 3)], [], false, []⟩ : InkyBank).total_supply =
      sumTouched ⟨0, 9, [(2, 6), (3, 0), (1, 3)], [], false, []⟩ :=
  claim_C1_conservation_amended 0 c1ops_ok ⟨0, 9, [(2, 6), (3, 0), (1, 3)], [], false, []⟩
    (by decide) (by decide)

end InkyBank
